import Mathlib

/-!
Verification of the Icarus photometry fitting engine against its
natural-language specification.

The development shallowly embeds the relevant code of
`Photometry/Photometry.py` and `Utils/Filter.py` in Lean 4.
Real-valued machine arithmetic is modelled over `ℚ` (exact rational
arithmetic) except where transcendental functions are intrinsic to the
claim (`Get_Keff` uses `Real.sin`), in which case `ℝ` is used.
Numpy arrays are modelled as `List`s; the stellar surface model
(`self.star.Mag_flux` / `self.star.Keff`) is an external collaborator and
is abstracted as a function parameter.

The leaf routines `Utils.Misc.Fit_linear` and
`Utils.Series.Getaxispos_vector` belong to this repository but are not
part of the provided sources; they are modelled from the specification
(sections 4.1 LinearFit and 4.2 AxisInterpolator), as indicated in their
doc comments.
-/

/-! ### Data model

One `Dataset` per photometric band, holding the arrays read by
`Photometry._Read_data` together with the per-band quantities attached in
`Photometry._Setup` (`calib` from the observation record,
`ext = atmo_grid[i].meta['ext']` from the atmosphere-grid collaborator). -/

structure Dataset where
  id : String
  phase : List ℚ
  mag : List ℚ
  err : List ℚ
  calib : ℚ
  ext : ℚ

instance : Inhabited Dataset := ⟨⟨"", [], [], [], 0, 0⟩⟩

/-- A constructed `Photometry` instance: the list of datasets, in file order. -/
structure Photometry where
  datasets : List Dataset

/-- `self.ndataset` (set in `__init__`). -/
def Photometry.ndataset (P : Photometry) : ℕ := P.datasets.length

/-- Access dataset `i` (python `self.data[...][i]`). -/
def dsGet (P : Photometry) (i : ℕ) : Dataset := P.datasets.getD i default

/-! ### Grouping (`Photometry._Setup`, lines 744-761)

The python loop scans `j = 0..i` in ascending order and stores the first
`j` with `self.data['id'][i] == self.data['id'][j]`; since `j = i` always
matches, this is the index of the first occurrence of `id[i]` in the id
list. -/

/-- Index of the first occurrence of `tgt` in a list (length of the list if
absent, which cannot happen at the call sites used here). -/
def firstIndexOf (tgt : String) : List String → ℕ
  | [] => 0
  | s :: rest => if s = tgt then 0 else firstIndexOf tgt rest + 1

/-- `self.grouping[i]`: smallest `j ≤ i` whose dataset id equals dataset
`i`'s id (python inner loop over `j in np.arange(i+1)` with `break`). -/
def grpFun (ids : List String) (i : ℕ) : ℕ :=
  firstIndexOf (ids.getD i "") ids

/-- `self.grouping` as the array built by `_Setup`. -/
def groupingList (ids : List String) : List ℕ :=
  (List.range ids.length).map (grpFun ids)

theorem firstIndexOf_le {tgt : String} {ids : List String} {j : ℕ}
    (hj : j < ids.length) (h : ids.getD j "" = tgt) : firstIndexOf tgt ids ≤ j := by
  induction ids generalizing j with
  | nil => simp at hj
  | cons s rest ih =>
    rw [firstIndexOf]
    by_cases hs : s = tgt
    · simp [hs]
    · simp only [hs, if_false]
      cases j with
      | zero => simp at h; exact absurd h hs
      | succ j' =>
        have := ih (by simpa using hj) (by simpa using h)
        omega

theorem firstIndexOf_getD {tgt : String} {ids : List String}
    (hm : ∃ j, j < ids.length ∧ ids.getD j "" = tgt) :
    ids.getD (firstIndexOf tgt ids) "" = tgt := by
  induction ids with
  | nil => obtain ⟨j, hj, _⟩ := hm; simp at hj
  | cons s rest ih =>
    rw [firstIndexOf]
    by_cases hs : s = tgt
    · simp [hs]
    · simp only [hs, if_false]
      obtain ⟨j, hj, h⟩ := hm
      cases j with
      | zero => simp at h; exact absurd h hs
      | succ j' =>
        have := ih ⟨j', by simpa using hj, by simpa using h⟩
        simpa using this

theorem firstIndexOf_min {tgt : String} {ids : List String} {j : ℕ}
    (hj : j < firstIndexOf tgt ids) : ids.getD j "" ≠ tgt := by
  induction ids generalizing j with
  | nil => rw [firstIndexOf] at hj; omega
  | cons s rest ih =>
    rw [firstIndexOf] at hj
    by_cases hs : s = tgt
    · simp [hs] at hj
    · simp only [hs, if_false] at hj
      cases j with
      | zero => simpa using hs
      | succ j' => simpa using ih (by omega)

/-- `grpFun` returns an index at most `i` with the same id (for `i` in range). -/
theorem grpFun_le {ids : List String} {i : ℕ} (hi : i < ids.length) :
    grpFun ids i ≤ i :=
  firstIndexOf_le hi rfl

theorem grpFun_sameId {ids : List String} {i : ℕ} (hi : i < ids.length) :
    ids.getD (grpFun ids i) "" = ids.getD i "" :=
  firstIndexOf_getD ⟨i, hi, rfl⟩

theorem grpFun_min {ids : List String} {i j : ℕ} (hj : j < grpFun ids i) :
    ids.getD j "" ≠ ids.getD i "" :=
  firstIndexOf_min hj

/-- `grpFun` is idempotent: the first occurrence of an id is its own group
representative. -/
theorem grpFun_idem (ids : List String) (i : ℕ) (hi : i < ids.length) :
    grpFun ids (grpFun ids i) = grpFun ids i := by
  have h := grpFun_sameId hi
  unfold grpFun
  unfold grpFun at h
  rw [h]

/-- **C4.** `grouping[i]` is the smallest index `j ≤ i` such that dataset `j`
has the same id as dataset `i`; `grouping[i] = i` when no earlier dataset
shares the id; and the ids `["V", "V", "B"]` yield grouping `[0, 0, 2]`. -/
theorem claim_C4 :
    (∀ (ids : List String) (i : ℕ), i < ids.length →
      ((groupingList ids).getD i 0 ≤ i ∧
       ids.getD ((groupingList ids).getD i 0) "" = ids.getD i "" ∧
       (∀ j, j < (groupingList ids).getD i 0 → ids.getD j "" ≠ ids.getD i "") ∧
       ((∀ j, j < i → ids.getD j "" ≠ ids.getD i "") →
         (groupingList ids).getD i 0 = i))) ∧
    groupingList ["V", "V", "B"] = [0, 0, 2] := by
  constructor
  · intro ids i hi
    have hget : (groupingList ids).getD i 0 = grpFun ids i := by
      unfold groupingList
      rw [List.getD_eq_getElem?_getD]
      simp [hi]
    rw [hget]
    refine ⟨grpFun_le hi, grpFun_sameId hi, fun j hj => grpFun_min hj, ?_⟩
    intro hnone
    by_contra hne
    have hlt : grpFun ids i < i := lt_of_le_of_ne (grpFun_le hi) hne
    exact hnone _ hlt (grpFun_sameId hi)
  · decide

/-- Witness for C4 at concrete input: ids `["V", "V", "B"]`, index 1. -/
theorem claim_C4_witness :
    (1 < (["V", "V", "B"] : List String).length) ∧
    ((groupingList ["V", "V", "B"]).getD 1 0 ≤ 1 ∧
     (["V", "V", "B"] : List String).getD ((groupingList ["V", "V", "B"]).getD 1 0) ""
        = (["V", "V", "B"] : List String).getD 1 "" ∧
     (∀ j, j < (groupingList ["V", "V", "B"]).getD 1 0 →
        (["V", "V", "B"] : List String).getD j "" ≠ (["V", "V", "B"] : List String).getD 1 "") ∧
     ((∀ j, j < 1 → (["V", "V", "B"] : List String).getD j "" ≠
        (["V", "V", "B"] : List String).getD 1 "") →
        (groupingList ["V", "V", "B"]).getD 1 0 = 1)) :=
  ⟨by decide, claim_C4.1 ["V", "V", "B"] 1 (by decide)⟩

/-! ### LinearFit (`Utils.Misc.Fit_linear`)

Modelled from the spec: `Utils.Misc.Fit_linear` is code of this repository
that is not under the provided sources.  Per spec section 4.1 (LinearFit):
weights are `1/error²`; the weighted least-squares line minimizing
`Σ w·(y − (slope·x + intercept))²` is computed with an optionally fixed
intercept and/or slope (fixed when the corresponding argument is supplied,
free when it is `none`); the return value is
`(intercept, slope, chi_square)` where `chi_square` is the weighted sum of
squared residuals at the returned parameters.  Callers that omit `x`
supply a zero abscissa list (spec: "default: index or zero"); at every
such call site in the sources the slope is fixed at `0`, so the choice is
immaterial. -/

/-- Modelled from the spec: section 4.1 LinearFit (`Utils.Misc.Fit_linear`,
not under the provided sources). Returns `(intercept, slope, chi_square)`. -/
def Fit_linear {α : Type} [Field α] (y x err : List α) (b? m? : Option α) :
    α × α × α :=
  let w := err.map (fun e => 1 / e ^ 2)
  let S := w.sum
  let Sx := (w.zipWith (· * ·) x).sum
  let Sy := (w.zipWith (· * ·) y).sum
  let Sxx := (w.zipWith (fun wi xi => wi * xi ^ 2) x).sum
  let Sxy := ((w.zipWith (· * ·) x).zipWith (· * ·) y).sum
  let bm : α × α :=
    match b?, m? with
    | some b, some m => (b, m)
    | some b, none => (b, (Sxy - b * Sx) / Sxx)
    | none, some m => ((Sy - m * Sx) / S, m)
    | none, none =>
      ((Sxx * Sy - Sx * Sxy) / (S * Sxx - Sx ^ 2),
       (S * Sxy - Sx * Sy) / (S * Sxx - Sx ^ 2))
  let resid := y.zipWith (fun yi xi => yi - (bm.2 * xi + bm.1)) x
  (bm.1, bm.2, (resid.zipWith (fun r e => 1 / e ^ 2 * r ^ 2) err).sum)

/-! ### AxisInterpolator (`Utils.Series.Getaxispos_vector`) -/

/-- Modelled from the spec: section 4.2 AxisInterpolator
(`Utils.Series.Getaxispos_vector`, not under the provided sources).
For a monotonic grid `g` and a query `q`, returns `(weight, index)` with
`index` the position of the last grid value `≤ q`, clamped to
`[0, N-2]`, and `weight = (q - g[index]) / (g[index+1] - g[index])`, so
that `q = g[index]·(1-weight) + g[index+1]·weight` and out-of-range
queries extrapolate from the edge segments. -/
def Getaxispos (g : List ℚ) (q : ℚ) : ℚ × ℕ :=
  let cnt := g.countP (fun v => decide (v ≤ q))
  let i := min (cnt - 1) (g.length - 2)
  let g0 := g.getD i 0
  let g1 := g.getD (i + 1) 0
  ((q - g0) / (g1 - g0), i)

/-- Linear interpolation of a sampled curve at `q`
(python `flux[i][inds]*(1-ws) + flux[i][inds+1]*ws`, `Get_flux` line 243). -/
def interp (grid curve : List ℚ) (q : ℚ) : ℚ :=
  let p := Getaxispos grid q
  curve.getD p.2 0 * (1 - p.1) + curve.getD (p.2 + 1) 0 * p.1

/-! ### `Photometry.Get_flux` (lines 197-249) -/

/-- The shared sampling grid `np.arange(nsamples)/nsamples` (line 222). -/
def sampleGrid (n : ℕ) : List ℚ :=
  (List.range n).map (fun k => (k : ℚ) / n)

/-- `self.data['ext'][i]*AV + DM` (line 227). -/
def offsetOf (P : Photometry) (DM AV : ℚ) (i : ℕ) : ℚ :=
  (dsGet P i).ext * AV + DM

/-- The sampled light curve of dataset `i`:
`np.array([self.star.Mag_flux(phase, atmo_grid=self.atmo_grid[i]) for phase
in phases[i]]) + offsets[i]` (line 237). `magFlux i` abstracts the external
surface model evaluated with `atmo_grid[i]`. -/
def curveAt (magFlux : ℕ → ℚ → ℚ) (P : Photometry) (grid : List ℚ)
    (DM AV : ℚ) (i : ℕ) : List ℚ :=
  grid.map (fun φ => magFlux i φ + offsetOf P DM AV i)

/-- The accumulation loop of `Get_flux` (lines 231-237) when `nsamples` is
set: dataset `i` with `grouping[i] < i` copies the already-computed curve of
dataset `grouping[i]`; otherwise the curve is computed afresh. `m` is the
number of loop iterations performed. -/
def buildSampled (magFlux : ℕ → ℚ → ℚ) (P : Photometry) (grid : List ℚ)
    (DM AV : ℚ) : ℕ → List (List ℚ)
  | 0 => []
  | i + 1 =>
    let acc := buildSampled magFlux P grid DM AV i
    acc ++ [if grpFun (P.datasets.map (·.id)) i < i
            then acc.getD (grpFun (P.datasets.map (·.id)) i) []
            else curveAt magFlux P grid DM AV i]

/-- `Photometry.Get_flux` (lines 197-249), per-dataset output
(`flat=False`). When `nsamples` is `None` the model is evaluated at each
observed phase directly; otherwise it is evaluated on the shared sampling
grid (with the grouping-based deduplication) and mapped back onto the
observed phases by linear interpolation. -/
def Get_flux (magFlux : ℕ → ℚ → ℚ) (P : Photometry) (nsamples : Option ℕ)
    (DM AV : ℚ) : List (List ℚ) :=
  match nsamples with
  | none =>
    (List.range P.ndataset).map (fun i =>
      (dsGet P i).phase.map (fun φ => magFlux i φ + offsetOf P DM AV i))
  | some n =>
    let grid := sampleGrid n
    let sampled := buildSampled magFlux P grid DM AV P.ndataset
    (List.range P.ndataset).map (fun i =>
      (dsGet P i).phase.map (fun q => interp grid (sampled.getD i []) q))

/-- `Photometry.Get_flux` with `flat=True` (`np.hstack(flux)`, line 247). -/
def Get_flux_flat (magFlux : ℕ → ℚ → ℚ) (P : Photometry)
    (nsamples : Option ℕ) (DM AV : ℚ) : List ℚ :=
  (Get_flux magFlux P nsamples DM AV).flatten

/-! ### Flattened arrays built by `_Setup` (lines 762-770) -/

/-- `self.mag = np.hstack(self.data['mag'])`. -/
def Photometry.magFlat (P : Photometry) : List ℚ :=
  (P.datasets.map (·.mag)).flatten

/-- `self.err = np.hstack(self.data['err'])`. -/
def Photometry.errFlat (P : Photometry) : List ℚ :=
  (P.datasets.map (·.err)).flatten

/-- `self.ext`: per-observation extinction coefficients,
`ext.extend(self.data['phase'][i]*0.+self.atmo_grid[i].meta['ext'])`
(line 747). -/
def Photometry.extFlat (P : Photometry) : List ℚ :=
  (P.datasets.map (fun d => d.phase.map (fun _ => d.ext))).flatten

/-! ### `Photometry.Calc_chi2` (lines 109-195), `influx=False`

The result quadruple is `(chi2, offset_band, DM, AV)` as produced by the
`full_output` dictionary. The surface model realized from the parameter
vector `par` by `Make_surface` is abstracted as `magFlux`. -/

/-- The stage-1 (data stage) per-dataset constant-offset fits of
`Calc_chi2` with `offset_free=1` (line 175):
`Fit_linear(self.data['mag'][i]-pred_flux[i], err=self.data['err'][i],
m=0., inline=True)` for each dataset `i`. -/
def stage1Fits (magFlux : ℕ → ℚ → ℚ) (P : Photometry)
    (nsamples : Option ℕ) : List (ℚ × ℚ × ℚ) :=
  let pred := Get_flux magFlux P nsamples 0 0
  (List.range P.ndataset).map (fun i =>
    let y := (dsGet P i).mag.zipWith (· - ·) (pred.getD i [])
    Fit_linear y (List.replicate y.length 0) (dsGet P i).err none (some 0))

/-- `chi2_data = res1[:,2].sum()` (line 179). -/
def chi2Data (magFlux : ℕ → ℚ → ℚ) (P : Photometry)
    (nsamples : Option ℕ) : ℚ :=
  ((stage1Fits magFlux P nsamples).map (fun r => r.2.2)).sum

/-- The stage-2 (band stage) fit of `Calc_chi2` with `offset_free=1`
(line 181): `Fit_linear(offset_band, x=self.data['ext'],
err=self.data['calib'], b=DM, m=AV, inline=True)`. -/
def bandFit (magFlux : ℕ → ℚ → ℚ) (P : Photometry) (nsamples : Option ℕ)
    (DM AV : Option ℚ) : ℚ × ℚ × ℚ :=
  Fit_linear ((stage1Fits magFlux P nsamples).map (fun r => r.1))
    (P.datasets.map (·.ext)) (P.datasets.map (·.calib)) DM AV

/-- `Photometry.Calc_chi2` (lines 109-195) in the magnitude domain
(`influx=False`), returning `(chi2, offset_band, DM, AV)`.
`DM`/`AV` are `Option`s because `None` may be passed to leave the band-stage
intercept/slope free (docstring lines 133-138). -/
def Calc_chi2 (magFlux : ℕ → ℚ → ℚ) (P : Photometry) (offset_free : Bool)
    (DM AV : Option ℚ) (nsamples : Option ℕ) : ℚ × List ℚ × ℚ × ℚ :=
  if offset_free = false then
    let pred := Get_flux_flat magFlux P nsamples 0 0
    let diff := P.magFlat.zipWith (· - ·) pred
    let r := Fit_linear diff P.extFlat P.errFlat DM AV
    (r.2.2 + 0, List.replicate P.ndataset 0, r.1, r.2.1)
  else
    let fits := stage1Fits magFlux P nsamples
    let offset_band := fits.map (fun r => r.1)
    let r2 := Fit_linear offset_band (P.datasets.map (·.ext))
      (P.datasets.map (·.calib)) DM AV
    ((fits.map (fun r => r.2.2)).sum + r2.2.2,
     offset_band.zipWith (fun o e => o - (e * r2.2.1 + r2.1))
       (P.datasets.map (·.ext)),
     r2.1, r2.2.1)

/-! ### Helper lemmas on lists -/

theorem range_map_getD {α β : Type} (l : List α) (d : α) (f : α → β) :
    (List.range l.length).map (fun i => f (l.getD i d)) = l.map f := by
  induction l with
  | nil => simp
  | cons a t ih =>
    rw [List.length_cons, List.range_succ_eq_map]
    simp only [List.map_cons, List.map_map, List.getD_cons_zero]
    refine congrArg (f a :: ·) ?_
    rw [← ih]
    rfl

theorem zipWith_left_id (y : List ℚ) :
    ∀ (x : List ℚ), y.length ≤ x.length → y.zipWith (fun a _ => a) x = y := by
  induction y with
  | nil => intro x _; simp
  | cons a t ih =>
    intro x hx
    cases x with
    | nil => simp at hx
    | cons b u =>
      simp only [List.zipWith_cons_cons]
      exact congrArg (a :: ·) (ih u (by simpa using hx))

/-- With both intercept and slope fixed at `0`, the chi-square computed by
`Fit_linear` is the plain sum of squared normalized residuals. -/
theorem fit_fixed_zero_chi2 (y x err : List ℚ) (hx : y.length ≤ x.length) :
    (Fit_linear y x err (some 0) (some 0)).2.2
      = (y.zipWith (fun a e => (a / e) ^ 2) err).sum := by
  show ((y.zipWith (fun yi xi => yi - ((0 : ℚ) * xi + 0)) x).zipWith
      (fun r e => 1 / e ^ 2 * r ^ 2) err).sum = _
  have hfun : (fun (yi xi : ℚ) => yi - ((0 : ℚ) * xi + 0)) = fun a _ => a := by
    funext a b; ring
  have hfun2 : (fun (r e : ℚ) => 1 / e ^ 2 * r ^ 2) = fun a e => (a / e) ^ 2 := by
    funext r e; rw [div_pow]; ring
  rw [hfun, zipWith_left_id y x hx, hfun2]

/-- Sum of the per-dataset phase-array lengths. -/
def phaseLenSum (P : Photometry) : ℕ :=
  (P.datasets.map (fun d => d.phase.length)).sum

/-- Well-formedness of a constructed instance: within each dataset the
magnitude, error and phase columns have the same length (they are columns
of a single `np.loadtxt` table in `_Read_data`). -/
def WF (P : Photometry) : Prop :=
  ∀ d ∈ P.datasets, d.mag.length = d.phase.length ∧ d.err.length = d.phase.length

theorem magFlat_length {P : Photometry} (h : WF P) :
    P.magFlat.length = phaseLenSum P := by
  unfold Photometry.magFlat phaseLenSum
  rw [List.length_flatten, List.map_map]
  exact congrArg List.sum (List.map_congr_left fun d hd => (h d hd).1)

theorem errFlat_length {P : Photometry} (h : WF P) :
    P.errFlat.length = phaseLenSum P := by
  unfold Photometry.errFlat phaseLenSum
  rw [List.length_flatten, List.map_map]
  exact congrArg List.sum (List.map_congr_left fun d hd => (h d hd).2)

theorem extFlat_length (P : Photometry) :
    P.extFlat.length = phaseLenSum P := by
  unfold Photometry.extFlat phaseLenSum
  rw [List.length_flatten, List.map_map]
  exact congrArg List.sum (List.map_congr_left fun d _ => by simp)

theorem predFlat_length (magFlux : ℕ → ℚ → ℚ) (P : Photometry) :
    (Get_flux_flat magFlux P none 0 0).length = phaseLenSum P := by
  unfold Get_flux_flat Get_flux phaseLenSum
  rw [List.length_flatten, List.map_map]
  refine congrArg List.sum ?_
  have := range_map_getD P.datasets default
    (fun d => (d.phase.map (fun φ => (0 : ℚ))).length)
  calc (List.range P.ndataset).map
        (fun i => ((dsGet P i).phase.map
          (fun φ => magFlux i φ + offsetOf P 0 0 i)).length)
      = (List.range P.datasets.length).map
        (fun i => (P.datasets.getD i default).phase.length) := by
        simp [dsGet, Photometry.ndataset]
    _ = P.datasets.map (fun d => d.phase.length) :=
        range_map_getD P.datasets default (fun d => d.phase.length)

/-- **C2.** With `offset_free = 0` and fixed `DM = 0`, `AV = 0`, the
chi-square returned by `Calc_chi2` is the sum over the flattened
aggregated observation vector of `((observed − predicted)/error)²`, the
weighted residual sum of the single global line with slope and intercept
fixed at the supplied values; no band-level chi-square term is added. -/
theorem claim_C2 (magFlux : ℕ → ℚ → ℚ) (P : Photometry) (hWF : WF P) :
    (Calc_chi2 magFlux P false (some 0) (some 0) none).1
      = ((P.magFlat.zipWith (· - ·) (Get_flux_flat magFlux P none 0 0)).zipWith
          (fun d e => (d / e) ^ 2) P.errFlat).sum := by
  have h1 : (Calc_chi2 magFlux P false (some 0) (some 0) none).1
      = (Fit_linear (P.magFlat.zipWith (· - ·) (Get_flux_flat magFlux P none 0 0))
          P.extFlat P.errFlat (some 0) (some 0)).2.2 + 0 := rfl
  rw [h1, add_zero]
  apply fit_fixed_zero_chi2
  rw [List.length_zipWith, magFlat_length hWF, predFlat_length, extFlat_length]
  omega

/-- Witness for C2: a concrete two-dataset instance. -/
theorem claim_C2_witness :
    WF ⟨[⟨"V", [0, 1/2], [5, 6], [1, 2], 1/100, 3⟩,
         ⟨"B", [1/4], [7], [1], 1/100, 4⟩]⟩ ∧
    (Calc_chi2 (fun i φ => (i : ℚ) + φ)
        ⟨[⟨"V", [0, 1/2], [5, 6], [1, 2], 1/100, 3⟩,
          ⟨"B", [1/4], [7], [1], 1/100, 4⟩]⟩ false (some 0) (some 0) none).1
      = (((⟨[⟨"V", [0, 1/2], [5, 6], [1, 2], 1/100, 3⟩,
            ⟨"B", [1/4], [7], [1], 1/100, 4⟩]⟩ : Photometry).magFlat.zipWith (· - ·)
            (Get_flux_flat (fun i φ => (i : ℚ) + φ)
              ⟨[⟨"V", [0, 1/2], [5, 6], [1, 2], 1/100, 3⟩,
                ⟨"B", [1/4], [7], [1], 1/100, 4⟩]⟩ none 0 0)).zipWith
          (fun d e => (d / e) ^ 2)
          (⟨[⟨"V", [0, 1/2], [5, 6], [1, 2], 1/100, 3⟩,
             ⟨"B", [1/4], [7], [1], 1/100, 4⟩]⟩ : Photometry).errFlat).sum :=
  ⟨by intro d hd
      simp only [List.mem_cons, List.not_mem_nil, or_false] at hd
      rcases hd with rfl | rfl <;> exact ⟨rfl, rfl⟩,
   claim_C2 (fun i φ => (i : ℚ) + φ) _
     (by intro d hd
         simp only [List.mem_cons, List.not_mem_nil, or_false] at hd
         rcases hd with rfl | rfl <;> exact ⟨rfl, rfl⟩)⟩

/-! ### C1: structure of the `offset_free=1` chi-square -/

theorem stage1Fits_length (magFlux : ℕ → ℚ → ℚ) (P : Photometry)
    (ns : Option ℕ) : (stage1Fits magFlux P ns).length = P.ndataset := by
  unfold stage1Fits
  simp

/-- **C1.** With `offset_free = 1`, the total chi-square is the sum of the
data-stage chi-square (accumulated over the per-dataset constant-offset
fits) and the band-stage chi-square, and the per-band offset of the full
output is the stage-1 fitted offset minus
`extinction_coefficient[i]*AV + DM` computed with the band-stage values of
`AV` and `DM`. -/
theorem claim_C1 (magFlux : ℕ → ℚ → ℚ) (P : Photometry) (DM AV : Option ℚ)
    (ns : Option ℕ) :
    (Calc_chi2 magFlux P true DM AV ns).1
      = chi2Data magFlux P ns + (bandFit magFlux P ns DM AV).2.2 ∧
    (∀ i, i < P.ndataset →
      (Calc_chi2 magFlux P true DM AV ns).2.1.getD i 0
        = ((stage1Fits magFlux P ns).getD i (0, 0, 0)).1
          - ((dsGet P i).ext * (Calc_chi2 magFlux P true DM AV ns).2.2.2
             + (Calc_chi2 magFlux P true DM AV ns).2.2.1)) := by
  refine ⟨rfl, ?_⟩
  intro i hi
  have hoff : (Calc_chi2 magFlux P true DM AV ns).2.1
      = ((stage1Fits magFlux P ns).map (fun r => r.1)).zipWith
          (fun o e => o - (e * (bandFit magFlux P ns DM AV).2.1
            + (bandFit magFlux P ns DM AV).1))
          (P.datasets.map (·.ext)) := rfl
  have hAV : (Calc_chi2 magFlux P true DM AV ns).2.2.2
      = (bandFit magFlux P ns DM AV).2.1 := rfl
  have hDM : (Calc_chi2 magFlux P true DM AV ns).2.2.1
      = (bandFit magFlux P ns DM AV).1 := rfl
  rw [hoff, hAV, hDM]
  have hlen1 : ((stage1Fits magFlux P ns).map (fun r => r.1)).length
      = P.ndataset := by rw [List.length_map, stage1Fits_length]
  have hlen2 : (P.datasets.map (·.ext)).length = P.ndataset := by
    simp [Photometry.ndataset]
  have hzlen : i < (((stage1Fits magFlux P ns).map (fun r => r.1)).zipWith
      (fun o e => o - (e * (bandFit magFlux P ns DM AV).2.1
        + (bandFit magFlux P ns DM AV).1)) (P.datasets.map (·.ext))).length := by
    rw [List.length_zipWith, hlen1, hlen2]
    omega
  rw [List.getD_eq_getElem _ _ hzlen, List.getElem_zipWith]
  have hi1 : i < ((stage1Fits magFlux P ns).map (fun r => r.1)).length := by
    omega
  have hi2 : i < (P.datasets.map (·.ext)).length := by omega
  have hi3 : i < (stage1Fits magFlux P ns).length := by
    rw [stage1Fits_length]; exact hi
  have hi4 : i < P.datasets.length := hi
  rw [List.getElem_map, List.getElem_map,
      List.getD_eq_getElem _ _ hi3]
  have hds : (dsGet P i).ext = P.datasets[i].ext := by
    unfold dsGet
    rw [List.getD_eq_getElem _ _ hi4]
  rw [hds]

/-- Witness for C1: a concrete two-dataset instance and index 1. -/
theorem claim_C1_witness :
    (1 < (⟨[⟨"V", [0, 1/2], [5, 6], [1, 2], 1/100, 3⟩,
            ⟨"B", [1/4], [7], [1], 1/100, 4⟩]⟩ : Photometry).ndataset) ∧
    (Calc_chi2 (fun i φ => (i : ℚ) + φ)
        ⟨[⟨"V", [0, 1/2], [5, 6], [1, 2], 1/100, 3⟩,
          ⟨"B", [1/4], [7], [1], 1/100, 4⟩]⟩ true (some 0) (some 0) none).2.1.getD 1 0
      = ((stage1Fits (fun i φ => (i : ℚ) + φ)
            ⟨[⟨"V", [0, 1/2], [5, 6], [1, 2], 1/100, 3⟩,
              ⟨"B", [1/4], [7], [1], 1/100, 4⟩]⟩ none).getD 1 (0, 0, 0)).1
        - ((dsGet ⟨[⟨"V", [0, 1/2], [5, 6], [1, 2], 1/100, 3⟩,
               ⟨"B", [1/4], [7], [1], 1/100, 4⟩]⟩ 1).ext
            * (Calc_chi2 (fun i φ => (i : ℚ) + φ)
                ⟨[⟨"V", [0, 1/2], [5, 6], [1, 2], 1/100, 3⟩,
                  ⟨"B", [1/4], [7], [1], 1/100, 4⟩]⟩ true (some 0) (some 0) none).2.2.2
           + (Calc_chi2 (fun i φ => (i : ℚ) + φ)
                ⟨[⟨"V", [0, 1/2], [5, 6], [1, 2], 1/100, 3⟩,
                  ⟨"B", [1/4], [7], [1], 1/100, 4⟩]⟩ true (some 0) (some 0) none).2.2.1) :=
  ⟨by decide,
   (claim_C1 (fun i φ => (i : ℚ) + φ)
      ⟨[⟨"V", [0, 1/2], [5, 6], [1, 2], 1/100, 3⟩,
        ⟨"B", [1/4], [7], [1], 1/100, 4⟩]⟩ (some 0) (some 0) none).2 1 (by decide)⟩

/-! ### C3: `Photometry.__init__` with mismatched counts (lines 92-107)

After `_Read_data` and `_Read_atmo`, the constructor compares
`len(self.atmo_grid)` with `len(self.data['mag'])`.  On a mismatch it
executes `print '...do not match!!!'` followed by a bare `return`: no
exception is raised, `self.ndataset`, the lightcurve and the `_Setup`
state are never created, and the partially-initialized object still
exists.  The outcome type records the three ways `__init__` can end. -/

inductive InitOutcome where
  /-- An exception escaped the constructor. -/
  | aborted (msg : String)
  /-- The `return` at line 101: construction stops after the diagnostic
  print, leaving an object without `ndataset`/lightcurve/`_Setup` state. -/
  | earlyReturn (data : List Dataset) (atmoCount : ℕ)
  /-- Construction completed. -/
  | ok (P : Photometry)

def InitOutcome.isAborted : InitOutcome → Bool
  | .aborted _ => true
  | _ => false

def InitOutcome.isOk : InitOutcome → Bool
  | .ok _ => true
  | _ => false

/-- `Photometry.__init__` (lines 92-107) after the data and atmosphere
files have been read into `ds` (the datasets) and `atmoCount` atmosphere
grids. -/
def Photometry.init (atmoCount : ℕ) (ds : List Dataset) : InitOutcome :=
  if atmoCount ≠ ds.length then .earlyReturn ds atmoCount
  else .ok ⟨ds⟩

/-- Counterexample to C3: with 2 atmosphere grids and 1 dataset the
constructor does not abort with an error; it returns early, leaving a
partially-initialized object. -/
theorem claim_C3_counterexample :
    (Photometry.init 2 [⟨"V", [0], [5], [1], 1/100, 3⟩]).isAborted = false ∧
    (Photometry.init 2 [⟨"V", [0], [5], [1], 1/100, 3⟩]).isOk = false ∧
    Photometry.init 2 [⟨"V", [0], [5], [1], 1/100, 3⟩]
      = .earlyReturn [⟨"V", [0], [5], [1], 1/100, 3⟩] 2 :=
  ⟨rfl, rfl, rfl⟩

/-- **C3 (amended).** When the number of atmosphere grids differs from the
number of datasets, the constructor prints a diagnostic and returns early:
no exception is raised (`DatasetCountMismatchError` does not exist), no
fully-constructed instance is produced, and the result is the
partially-initialized early-return state. -/
theorem claim_C3 (atmoCount : ℕ) (ds : List Dataset)
    (h : atmoCount ≠ ds.length) :
    Photometry.init atmoCount ds = .earlyReturn ds atmoCount ∧
    (Photometry.init atmoCount ds).isAborted = false ∧
    (Photometry.init atmoCount ds).isOk = false := by
  unfold Photometry.init
  rw [if_pos h]
  exact ⟨rfl, rfl, rfl⟩

/-- Witness for the amended C3 at concrete input. -/
theorem claim_C3_witness :
    ((2 : ℕ) ≠ ([⟨"V", [0], [5], [1], 1/100, 3⟩] : List Dataset).length) ∧
    (Photometry.init 2 [⟨"V", [0], [5], [1], 1/100, 3⟩]
        = .earlyReturn [⟨"V", [0], [5], [1], 1/100, 3⟩] 2 ∧
     (Photometry.init 2 [⟨"V", [0], [5], [1], 1/100, 3⟩]).isAborted = false ∧
     (Photometry.init 2 [⟨"V", [0], [5], [1], 1/100, 3⟩]).isOk = false) :=
  ⟨by decide, claim_C3 2 [⟨"V", [0], [5], [1], 1/100, 3⟩] (by decide)⟩

/-! ### C6: `Photometry._Read_data` (lines 650-720) on a 9-column flux record

`self.data` is created at line 652 as a dict with keys
`'mag', 'phase', 'err', 'calib', 'fln', 'id', 'softening'` only.  The
9-column branch with format flag `'flux'` then executes
`self.data['flux'].append(...)` (line 711): `'flux'` is not a key of the
dict, so python raises `KeyError: 'flux'`.  The embedding keeps the two
never-initialized keys as `Option` fields (`none` = key absent) and a
dict lookup of an absent key produces the error. -/

structure RawData where
  mag : List (List ℚ)
  phase : List (List ℚ)
  err : List (List ℚ)
  calib : List ℚ
  fln : List String
  id : List String
  softening : List ℚ
  flux : Option (List (List ℚ))
  flux_err : Option (List (List ℚ))

/-- The dict literal at line 652. -/
def initData : RawData := ⟨[], [], [], [], [], [], [], none, none⟩

/-- One parsed observation-file line: the token count decides the format.
`cols` holds the three columns `d[0], d[1], d[2]` selected by
`np.loadtxt` from the referenced data file. -/
inductive ObsRecord where
  | seven (id : String) (cols : List ℚ × List ℚ × List ℚ)
      (shift calibErr : ℚ) (fln : String)
  | eight (id : String) (cols : List ℚ × List ℚ × List ℚ)
      (shift calibErr soft : ℚ) (fln : String)
  | nine (id : String) (cols : List ℚ × List ℚ × List ℚ)
      (shift calibErr soft : ℚ) (flag : String) (fln : String)
  | other

/-- `x % 1.` for the phase reduction. -/
def qmod1 (x : ℚ) : ℚ := x - ⌊x⌋

/-- Phase column handling: with the long-term-coherence marker
(an underscore in the id) the shifted phase is kept unwrapped, otherwise
it is reduced modulo 1 (lines 693-696 and analogues). -/
def phaseTransform (id : String) (shift : ℚ) (d0 : List ℚ) : List ℚ :=
  if id.contains '_' then d0.map (fun v => v - shift)
  else d0.map (fun v => qmod1 (v - shift))

/-- `Photometry._Read_data`, processing of one non-comment line
(lines 653-719). Appends of the `'flux'` branch follow the python
statement order: the phase append at lines 707-710 precedes the
`self.data['flux']` lookup at line 711, whose failure aborts the read. -/
def readLine (data : RawData) (rec : ObsRecord) : Except String RawData :=
  match rec with
  | .seven id (d0, d1, d2) shift calibErr fln =>
    .ok { data with
      phase := data.phase ++ [phaseTransform id shift d0]
      mag := data.mag ++ [d1]
      err := data.err ++ [d2]
      calib := data.calib ++ [calibErr]
      fln := data.fln ++ [fln]
      id := data.id ++ [id]
      softening := data.softening ++ [0] }
  | .eight id (d0, d1, d2) shift calibErr soft fln =>
    .ok { data with
      phase := data.phase ++ [phaseTransform id shift d0]
      mag := data.mag ++ [d1]
      err := data.err ++ [d2]
      calib := data.calib ++ [calibErr]
      fln := data.fln ++ [fln]
      id := data.id ++ [id]
      softening := data.softening ++ [soft] }
  | .nine id (d0, d1, d2) shift calibErr soft flag fln =>
    if flag = "mag" then
      .ok { data with
        phase := data.phase ++ [phaseTransform id shift d0]
        mag := data.mag ++ [d1]
        err := data.err ++ [d2]
        calib := data.calib ++ [calibErr]
        fln := data.fln ++ [fln]
        id := data.id ++ [id]
        softening := data.softening ++ [soft] }
    else if flag = "flux" then
      match data.flux with
      | none => .error "KeyError: flux"
      | some fl =>
        match data.flux_err with
        | none => .error "KeyError: flux_err"
        | some fe =>
          .ok { data with
            phase := data.phase ++ [phaseTransform id shift d0]
            flux := some (fl ++ [d1])
            flux_err := some (fe ++ [d2])
            calib := data.calib ++ [calibErr]
            fln := data.fln ++ [fln]
            id := data.id ++ [id]
            softening := data.softening ++ [soft] }
    else
      .ok data
  | .other =>
    .error "The data file does not have the expected number of columns."

/-- **C6 (failing).** Reading a 9-column observation record whose format
flag is `'flux'` does not succeed: it hits the missing `'flux'` key of the
dict built at line 652 and fails with `KeyError`, so neither the flux
columns nor a derived magnitude representation are ever stored. -/
theorem claim_C6 :
    readLine initData
      (.nine "V" ([1/10], [2], [1/10]) 0 (1/50) 0 "flux" "lc_V.txt")
      = .error "KeyError: flux" := rfl

/-! ### C5: deduplication in `Get_flux` with `nsamples` set -/

theorem buildSampled_length (magFlux : ℕ → ℚ → ℚ) (P : Photometry)
    (grid : List ℚ) (DM AV : ℚ) :
    ∀ m, (buildSampled magFlux P grid DM AV m).length = m := by
  intro m
  induction m with
  | zero => rfl
  | succ m ih =>
    rw [buildSampled]
    simp [ih]

theorem getD_concat_of_length {α : Type} (l : List α) (c d : α) (i : ℕ)
    (h : l.length = i) : (l ++ [c]).getD i d = c := by
  subst h
  rw [List.getD_eq_getElem?_getD, List.getElem?_append_right (le_refl _)]
  simp

/-- Every slot of the accumulation loop holds the curve of its group
representative: copied slots are verbatim copies of the representative
curve, and representatives hold their own curve. -/
theorem buildSampled_getD (magFlux : ℕ → ℚ → ℚ) (P : Photometry)
    (grid : List ℚ) (DM AV : ℚ) :
    ∀ m, m ≤ P.ndataset → ∀ i, i < m →
      (buildSampled magFlux P grid DM AV m).getD i []
        = curveAt magFlux P grid DM AV (grpFun (P.datasets.map (·.id)) i) := by
  intro m
  induction m with
  | zero => intro _ i hi; omega
  | succ m ih =>
    intro hm i hi
    rw [buildSampled]
    show ((buildSampled magFlux P grid DM AV m) ++ [_]).getD i [] = _
    rcases Nat.lt_or_ge i m with hlt | hge
    · rw [List.getD_append _ _ _ _ (by rw [buildSampled_length]; exact hlt)]
      exact ih (by omega) i hlt
    · have him : i = m := by omega
      subst him
      have hilen : i < (P.datasets.map (·.id)).length := by
        have : i < P.ndataset := by omega
        simpa [Photometry.ndataset] using this
      rw [getD_concat_of_length _ _ _ _ (buildSampled_length magFlux P grid DM AV i)]
      by_cases hg : grpFun (P.datasets.map (·.id)) i < i
      · rw [if_pos hg]
        rw [ih (by omega) _ hg]
        rw [grpFun_idem _ _ hilen]
      · rw [if_neg hg]
        have hle : grpFun (P.datasets.map (·.id)) i ≤ i := grpFun_le hilen
        have heq : grpFun (P.datasets.map (·.id)) i = i := by omega
        rw [heq]

/-- What direct recomputation of dataset `i` (no deduplication) followed by
interpolation onto its own observed phases would produce. -/
def directFlux (magFlux : ℕ → ℚ → ℚ) (P : Photometry) (n : ℕ)
    (DM AV : ℚ) (i : ℕ) : List ℚ :=
  (dsGet P i).phase.map (fun q =>
    interp (sampleGrid n) (curveAt magFlux P (sampleGrid n) DM AV i) q)

/-- **C5.** When a sample count `n` is set and `grouping[i] < i`, `Get_flux`
copies dataset `i`'s sampled flux sequence verbatim from dataset
`grouping[i]` instead of recomputing it, and — the duplicate band having
the same model curve and extinction coefficient — the values returned for
dataset `i` (the copied curve interpolated onto dataset `i`'s own observed
phases, with `ext[i]*AV + DM` added at sampling time) equal what direct
recomputation for dataset `i` would produce, all datasets sharing the same
evenly spaced sampling grid. -/
theorem claim_C5 (magFlux : ℕ → ℚ → ℚ) (P : Photometry) (n : ℕ)
    (DM AV : ℚ) (i : ℕ) (hi : i < P.ndataset)
    (hg : grpFun (P.datasets.map (·.id)) i < i)
    (hmf : ∀ φ, magFlux i φ = magFlux (grpFun (P.datasets.map (·.id)) i) φ)
    (hext : (dsGet P i).ext = (dsGet P (grpFun (P.datasets.map (·.id)) i)).ext) :
    (buildSampled magFlux P (sampleGrid n) DM AV P.ndataset).getD i []
      = (buildSampled magFlux P (sampleGrid n) DM AV P.ndataset).getD
          (grpFun (P.datasets.map (·.id)) i) [] ∧
    (Get_flux magFlux P (some n) DM AV).getD i []
      = directFlux magFlux P n DM AV i := by
  set ids := P.datasets.map (·.id) with hids
  have hilen : i < ids.length := by simpa [hids, Photometry.ndataset] using hi
  have hcurve : curveAt magFlux P (sampleGrid n) DM AV (grpFun ids i)
      = curveAt magFlux P (sampleGrid n) DM AV i := by
    unfold curveAt offsetOf
    refine List.map_congr_left fun φ _ => ?_
    rw [hmf φ, hext]
  constructor
  · rw [buildSampled_getD magFlux P (sampleGrid n) DM AV P.ndataset
        (le_refl _) i hi,
        buildSampled_getD magFlux P (sampleGrid n) DM AV P.ndataset
        (le_refl _) _ (by omega),
        grpFun_idem _ _ hilen]
  · have hrange : i < (List.range P.ndataset).length := by simpa using hi
    unfold Get_flux
    rw [List.getD_eq_getElem?_getD]
    rw [List.getElem?_eq_getElem (by simpa using hi)]
    rw [Option.getD_some, List.getElem_map, List.getElem_range]
    rw [buildSampled_getD magFlux P (sampleGrid n) DM AV P.ndataset
        (le_refl _) i hi, hcurve]
    rfl

/-- Witness for C5: two duplicate `"V"` datasets, a shared model curve, and
a 2-point sampling grid. -/
theorem claim_C5_witness :
    ((1 : ℕ) < (⟨[⟨"V", [0, 1/2], [5, 6], [1, 2], 1/100, 3⟩,
                  ⟨"V", [1/4], [7], [1], 1/100, 3⟩]⟩ : Photometry).ndataset ∧
     grpFun ((⟨[⟨"V", [0, 1/2], [5, 6], [1, 2], 1/100, 3⟩,
                ⟨"V", [1/4], [7], [1], 1/100, 3⟩]⟩ : Photometry).datasets.map (·.id)) 1 < 1) ∧
    ((buildSampled (fun _ φ => φ)
        ⟨[⟨"V", [0, 1/2], [5, 6], [1, 2], 1/100, 3⟩,
          ⟨"V", [1/4], [7], [1], 1/100, 3⟩]⟩ (sampleGrid 2) 0 0
        (⟨[⟨"V", [0, 1/2], [5, 6], [1, 2], 1/100, 3⟩,
           ⟨"V", [1/4], [7], [1], 1/100, 3⟩]⟩ : Photometry).ndataset).getD 1 []
      = (buildSampled (fun _ φ => φ)
        ⟨[⟨"V", [0, 1/2], [5, 6], [1, 2], 1/100, 3⟩,
          ⟨"V", [1/4], [7], [1], 1/100, 3⟩]⟩ (sampleGrid 2) 0 0
        (⟨[⟨"V", [0, 1/2], [5, 6], [1, 2], 1/100, 3⟩,
           ⟨"V", [1/4], [7], [1], 1/100, 3⟩]⟩ : Photometry).ndataset).getD
          (grpFun ((⟨[⟨"V", [0, 1/2], [5, 6], [1, 2], 1/100, 3⟩,
            ⟨"V", [1/4], [7], [1], 1/100, 3⟩]⟩ : Photometry).datasets.map (·.id)) 1) [] ∧
     (Get_flux (fun _ φ => φ)
        ⟨[⟨"V", [0, 1/2], [5, 6], [1, 2], 1/100, 3⟩,
          ⟨"V", [1/4], [7], [1], 1/100, 3⟩]⟩ (some 2) 0 0).getD 1 []
      = directFlux (fun _ φ => φ)
          ⟨[⟨"V", [0, 1/2], [5, 6], [1, 2], 1/100, 3⟩,
            ⟨"V", [1/4], [7], [1], 1/100, 3⟩]⟩ 2 0 0 1) :=
  ⟨⟨by decide, by decide⟩,
   claim_C5 (fun _ φ => φ)
     ⟨[⟨"V", [0, 1/2], [5, 6], [1, 2], 1/100, 3⟩,
       ⟨"V", [1/4], [7], [1], 1/100, 3⟩]⟩ 2 0 0 1
     (by decide) (by decide) (fun φ => rfl) rfl⟩

/-! ### `Utils.Filter.Resample_spectrum` (lines 112-138) -/

/-- Numpy boolean-mask indexing `arr[inds]`. -/
def applyMask {α : Type} (mask : List Bool) (xs : List α) : List α :=
  ((mask.zip xs).filter (fun p => p.1)).map (fun p => p.2)

/-- `np.arange(start, stop, step)` over exact rationals (for a positive
step, `⌈(stop-start)/step⌉` evenly spaced values starting at `start`). -/
def arange (start stop step : ℚ) : List ℚ :=
  (List.range (if 0 < step then (⌈(stop - start) / step⌉).toNat else 0)).map
    (fun k => start + k * step)

/-- `Utils.Filter.Resample_spectrum` (lines 112-138): optional inclusive
trim to `wrange`, then optional resampling at constant interval `resample`
(the new grid is `np.arange(w[0], w[-1]+resample*0.5, resample)` and the
new values come from linear interpolation through `Getaxispos`). -/
def Resample_spectrum (w f : List ℚ) (wrange : Option (ℚ × ℚ))
    (resample : Option ℚ) : List ℚ × List ℚ :=
  let wf : List ℚ × List ℚ :=
    match wrange with
    | none => (w, f)
    | some r =>
      let inds := w.map (fun v => decide (r.1 ≤ v) && decide (v ≤ r.2))
      (applyMask inds w, applyMask inds f)
  match resample with
  | none => wf
  | some s =>
    let wNew := arange (wf.1.getD 0 0) (wf.1.getLastD 0 + s * (1/2)) s
    let fNew := wNew.map (fun q =>
      let p := Getaxispos wf.1 q
      wf.2.getD p.2 0 * (1 - p.1) + wf.2.getD (p.2 + 1) 0 * p.1)
    (wNew, fNew)

/-- **C9.** `Resample_spectrum` on the grid `[0,1,2,3,4]` with
`resample = 2` returns the new grid `[0,2,4]` with values obtained by
linear interpolation of the input fluxes, exactly matching direct
evaluation at those grid points. -/
theorem claim_C9 (f0 f1 f2 f3 f4 : ℚ) :
    Resample_spectrum [0, 1, 2, 3, 4] [f0, f1, f2, f3, f4] none (some 2)
      = ([0, 2, 4], [f0, f2, f4]) := by
  have hceil : (⌈((([0, 1, 2, 3, 4] : List ℚ).getLastD 0 + 2 * (1/2)) -
      ([0, 1, 2, 3, 4] : List ℚ).getD 0 0) / 2⌉).toNat = 3 := by
    have h5 : (([0, 1, 2, 3, 4] : List ℚ).getLastD 0 + 2 * (1/2)) -
        ([0, 1, 2, 3, 4] : List ℚ).getD 0 0 = 5 := by
      norm_num [List.getD, List.getLastD]
    rw [h5]
    have hc : ⌈(5 : ℚ) / 2⌉ = 3 := by
      rw [Int.ceil_eq_iff]
      norm_num
    rw [hc]
    rfl
  have hw : arange (([0, 1, 2, 3, 4] : List ℚ).getD 0 0)
      (([0, 1, 2, 3, 4] : List ℚ).getLastD 0 + 2 * (1/2)) 2 = [0, 2, 4] := by
    unfold arange
    rw [if_pos (by norm_num), hceil]
    norm_num [List.range_succ, List.getD]
  have h0 : Getaxispos [0, 1, 2, 3, 4] 0 = (0, 0) := by
    unfold Getaxispos
    norm_num [List.countP_cons, List.countP_nil, List.getD]
  have h2 : Getaxispos [0, 1, 2, 3, 4] 2 = (0, 2) := by
    unfold Getaxispos
    norm_num [List.countP_cons, List.countP_nil, List.getD]
  have h4 : Getaxispos [0, 1, 2, 3, 4] 4 = (1, 3) := by
    unfold Getaxispos
    norm_num [List.countP_cons, List.countP_nil, List.getD]
  show (arange _ _ _, _) = _
  rw [hw]
  simp only [List.map_cons, List.map_nil, h0, h2, h4]
  norm_num [List.getD]

theorem applyMask_cons {α : Type} (b : Bool) (mask : List Bool) (x : α)
    (xs : List α) :
    applyMask (b :: mask) (x :: xs)
      = if b then x :: applyMask mask xs else applyMask mask xs := by
  by_cases hb : b
  · simp [applyMask, hb]
  · simp [applyMask, hb]

theorem applyMask_zip_filter {α β : Type} (p : α → Bool) :
    ∀ (w : List α) (f : List β), w.length = f.length →
      applyMask (w.map p) w = ((w.zip f).filter (fun q => p q.1)).map Prod.fst ∧
      applyMask (w.map p) f = ((w.zip f).filter (fun q => p q.1)).map Prod.snd := by
  intro w
  induction w with
  | nil =>
    intro f hf
    cases f with
    | nil => exact ⟨rfl, rfl⟩
    | cons y f' => simp at hf
  | cons x w' ih =>
    intro f hf
    cases f with
    | nil => simp at hf
    | cons y f' =>
      obtain ⟨ih1, ih2⟩ := ih f' (by simpa using hf)
      rw [List.map_cons, applyMask_cons, applyMask_cons, List.zip_cons_cons,
          List.filter_cons]
      by_cases hp : p x
      · simp only [hp, if_true, List.map_cons]
        exact ⟨by rw [ih1], by rw [ih2]⟩
      · simp only [hp, if_false]
        exact ⟨ih1, ih2⟩

/-- **C10.** With bounds `[a, b]`, `Resample_spectrum` keeps exactly the
samples with `a ≤ w[i] ≤ b` — both endpoints included — preserving their
order and values; with `resample = None` it performs only this trimming,
returning the kept samples unchanged. -/
theorem claim_C10 (w f : List ℚ) (a b : ℚ) (h : w.length = f.length) :
    Resample_spectrum w f (some (a, b)) none
      = (((w.zip f).filter (fun q => decide (a ≤ q.1) && decide (q.1 ≤ b))).map
           Prod.fst,
         ((w.zip f).filter (fun q => decide (a ≤ q.1) && decide (q.1 ≤ b))).map
           Prod.snd) := by
  obtain ⟨h1, h2⟩ :=
    applyMask_zip_filter (fun v => decide (a ≤ v) && decide (v ≤ b)) w f h
  show (applyMask (w.map fun v => decide (a ≤ v) && decide (v ≤ b)) w,
        applyMask (w.map fun v => decide (a ≤ v) && decide (v ≤ b)) f) = _
  rw [h1, h2]

/-- Witness for C10 at a concrete input. -/
theorem claim_C10_witness :
    (([1, 2, 3, 4] : List ℚ).length = ([10, 20, 30, 40] : List ℚ).length) ∧
    Resample_spectrum [1, 2, 3, 4] [10, 20, 30, 40] (some (2, 3)) none
      = (((([1, 2, 3, 4] : List ℚ).zip ([10, 20, 30, 40] : List ℚ)).filter
            (fun q => decide ((2:ℚ) ≤ q.1) && decide (q.1 ≤ (3:ℚ)))).map Prod.fst,
         ((([1, 2, 3, 4] : List ℚ).zip ([10, 20, 30, 40] : List ℚ)).filter
            (fun q => decide ((2:ℚ) ≤ q.1) && decide (q.1 ≤ (3:ℚ)))).map Prod.snd) :=
  ⟨rfl, claim_C10 [1, 2, 3, 4] [10, 20, 30, 40] 2 3 rfl⟩

/-! ### `Utils.Filter.Band_integration` (lines 13-55) -/

/-- `scipy.integrate.trapz(y, x)`: the trapezoidal rule
`Σ (x[k+1]-x[k])·(y[k]+y[k+1])/2`. -/
def trapz : List ℚ → List ℚ → ℚ
  | y0 :: y1 :: ys, x0 :: x1 :: xs =>
    (x1 - x0) * (y0 + y1) / 2 + trapz (y1 :: ys) (x1 :: xs)
  | _, _ => 0

/-- `cts.c`, the speed of light in m/s. -/
def clight : ℚ := 299792458

/-- `Utils.Filter.Band_integration` (lines 13-55).  `bandFn` is the filter
interpolation function `band_func`; `nuFlag`/`ABFlag` are the `nu`/`AB`
keyword arguments.  The branch condition reproduces `np.any(nu)` at line
41/48: after `nu, f_nu = w, f`, it is `np.any(w)` when `nu=True` and
`np.any(False) = False` when `nu=False`. -/
def Band_integration (bandFn : ℚ → ℚ) (w f : List ℚ)
    (nuFlag ABFlag : Bool) : ℚ :=
  let f_band := w.map bandFn
  let anyNu := nuFlag && w.any (fun v => decide (v ≠ 0))
  if ABFlag then
    if anyNu then
      trapz ((f_band.zipWith (· * ·) f).zipWith (· / ·) w) w /
        trapz (f_band.zipWith (· / ·) w) w
    else
      let wav := w.map (· * (1 / 10 ^ 10))
      let fwav := f.map (· * 10 ^ 10)
      trapz ((f_band.zipWith (· * ·) fwav).zipWith (· * ·) wav) wav /
        trapz ((f_band.zipWith (· / ·) wav).map (· * clight)) wav
  else
    (if anyNu then
      trapz ((f_band.zipWith (· * ·) f).zipWith (· / ·) w) w /
        trapz ((f_band.map (· * clight)).zipWith (· / ·)
          (w.map (fun v => v ^ 3))) w
    else
      trapz ((f_band.zipWith (· * ·) f).zipWith (· * ·) w) w /
        trapz (f_band.zipWith (· * ·) w) w) * (1 / 10 ^ 10)

theorem zipWith_map_map (op : ℚ → ℚ → ℚ) (g h : ℚ → ℚ) :
    ∀ w : List ℚ,
      (w.map g).zipWith op (w.map h) = w.map (fun x => op (g x) (h x)) := by
  intro w
  induction w with
  | nil => rfl
  | cons x xs ih => simp [ih]

theorem zipWith_map_self (op : ℚ → ℚ → ℚ) (g : ℚ → ℚ) :
    ∀ w : List ℚ, (w.map g).zipWith op w = w.map (fun x => op (g x) x) := by
  intro w
  induction w with
  | nil => rfl
  | cons x xs ih => simp [ih]

theorem trapz_map_smul (u : ℚ) (g : ℚ → ℚ) :
    ∀ w : List ℚ,
      trapz (w.map (fun x => u * g x)) w = u * trapz (w.map g) w := by
  intro w
  induction w with
  | nil => simp [trapz]
  | cons x0 rest ih =>
    cases rest with
    | nil => simp [trapz]
    | cons x1 xs =>
      rw [List.map_cons, List.map_cons, List.map_cons, List.map_cons,
          trapz, trapz]
      rw [← List.map_cons (fun x => u * g x) x1 xs, ← List.map_cons g x1 xs,
          ih]
      ring

theorem trapz_nonneg (g : ℚ → ℚ) :
    ∀ w : List ℚ, List.Chain' (· < ·) w → (∀ x ∈ w, 0 ≤ g x) →
      0 ≤ trapz (w.map g) w := by
  intro w
  induction w with
  | nil => simp [trapz]
  | cons x0 rest ih =>
    cases rest with
    | nil => intro _ _; simp [trapz]
    | cons x1 xs =>
      intro hch hg
      rw [List.map_cons, List.map_cons, trapz]
      rw [← List.map_cons g x1 xs]
      have hch' := (List.chain'_cons.mp hch)
      have h1 : (0:ℚ) ≤ (x1 - x0) * (g x0 + g x1) / 2 := by
        apply div_nonneg _ (by norm_num)
        apply mul_nonneg
        · linarith [hch'.1]
        · have := hg x0 (by simp)
          have := hg x1 (by simp)
          linarith
      have h2 := ih hch'.2 (fun x hx => hg x (by simp [hx]))
      linarith

theorem trapz_pos (g : ℚ → ℚ) :
    ∀ w : List ℚ, List.Chain' (· < ·) w → (∀ x ∈ w, 0 ≤ g x) →
      (∃ i, i + 1 < w.length ∧ 0 < g (w.getD i 0) + g (w.getD (i + 1) 0)) →
      0 < trapz (w.map g) w := by
  intro w
  induction w with
  | nil => rintro _ _ ⟨i, hi, _⟩; simp at hi
  | cons x0 rest ih =>
    cases rest with
    | nil => rintro _ _ ⟨i, hi, _⟩; simp at hi
    | cons x1 xs =>
      rintro hch hg ⟨i, hi, hpos⟩
      rw [List.map_cons, List.map_cons, trapz]
      rw [← List.map_cons g x1 xs]
      have hch' := (List.chain'_cons.mp hch)
      cases i with
      | zero =>
        have h1 : (0:ℚ) < (x1 - x0) * (g x0 + g x1) / 2 := by
          apply div_pos _ (by norm_num)
          apply mul_pos
          · linarith [hch'.1]
          · simpa using hpos
        have h2 := trapz_nonneg g (x1 :: xs) hch'.2
          (fun x hx => hg x (by simp [hx]))
        linarith
      | succ j =>
        have h1 : (0:ℚ) ≤ (x1 - x0) * (g x0 + g x1) / 2 := by
          apply div_nonneg _ (by norm_num)
          apply mul_nonneg
          · linarith [hch'.1]
          · have := hg x0 (by simp)
            have := hg x1 (by simp)
            linarith
        have h2 := ih hch'.2 (fun x hx => hg x (by simp [hx]))
          ⟨j, by simpa using hi, by simpa using hpos⟩
        linarith

/-- **C8.** For a strictly increasing positive grid and a non-negative
filter response that is positive on some adjacent grid pair (in particular
a boxcar of any width containing a grid segment), `Band_integration` in AB
mode applied to a spectrum with constant unit level `u` in the
frequency-domain branch returns exactly `u`: the ratio of the two
trapezoidal integrals equals the constant input level, independently of
the filter width. -/
theorem claim_C8 (bandFn : ℚ → ℚ) (u : ℚ) (w : List ℚ)
    (hmono : List.Chain' (· < ·) w)
    (hpos : ∀ x ∈ w, 0 < x)
    (hband : ∀ x ∈ w, 0 ≤ bandFn x)
    (hnz : ∃ i, i + 1 < w.length ∧
      0 < bandFn (w.getD i 0) + bandFn (w.getD (i + 1) 0)) :
    Band_integration bandFn w (w.map (fun _ => u)) true true = u := by
  obtain ⟨i, hi, hsum⟩ := hnz
  have hany : w.any (fun v => decide (v ≠ 0)) = true := by
    cases w with
    | nil => simp at hi
    | cons x xs =>
      have hx := hpos x (by simp)
      simp only [List.any_cons, Bool.or_eq_true, decide_eq_true_eq]
      exact Or.inl (ne_of_gt hx)
  have hred : Band_integration bandFn w (w.map (fun _ => u)) true true
      = trapz (((w.map bandFn).zipWith (· * ·) (w.map (fun _ => u))).zipWith
          (· / ·) w) w /
        trapz ((w.map bandFn).zipWith (· / ·) w) w := by
    unfold Band_integration
    rw [hany]
    simp
  rw [hred, zipWith_map_map (· * ·) bandFn (fun _ => u) w,
      zipWith_map_self (· / ·) (fun x => bandFn x * u) w,
      zipWith_map_self (· / ·) bandFn w]
  have hfun : (fun x => bandFn x * u / x) = fun x => u * (bandFn x / x) :=
    funext fun x => by ring
  rw [hfun, trapz_map_smul]
  have hD : 0 < trapz (w.map (fun x => bandFn x / x)) w := by
    apply trapz_pos _ w hmono
      (fun x hx => div_nonneg (hband x hx) (le_of_lt (hpos x hx)))
    refine ⟨i, hi, ?_⟩
    have hmema : w.getD i 0 ∈ w := by
      rw [List.getD_eq_getElem _ _ (by omega)]
      exact List.getElem_mem _
    have hmemb : w.getD (i + 1) 0 ∈ w := by
      rw [List.getD_eq_getElem _ _ hi]
      exact List.getElem_mem _
    have ha := hpos _ hmema
    have hb := hpos _ hmemb
    have hba := hband _ hmema
    have hbb := hband _ hmemb
    rcases lt_or_eq_of_le hba with h1 | h1
    · exact add_pos_of_pos_of_nonneg (div_pos h1 ha)
        (div_nonneg hbb (le_of_lt hb))
    · rcases lt_or_eq_of_le hbb with h2 | h2
      · exact add_pos_of_nonneg_of_pos (div_nonneg hba (le_of_lt ha))
          (div_pos h2 hb)
      · rw [← h1, ← h2] at hsum
        simp at hsum
  exact mul_div_cancel_right₀ u (ne_of_gt hD)

/-- Witness for C8: the grid `[1,2,3,4]`, a boxcar filter on `[2,3]`, and a
flat unit spectrum. -/
theorem claim_C8_witness :
    (List.Chain' (· < ·) ([1, 2, 3, 4] : List ℚ) ∧
     (∀ x ∈ ([1, 2, 3, 4] : List ℚ), 0 < x) ∧
     (∀ x ∈ ([1, 2, 3, 4] : List ℚ),
       0 ≤ (fun v : ℚ => if 2 ≤ v ∧ v ≤ 3 then (1:ℚ) else 0) x) ∧
     (∃ i, i + 1 < ([1, 2, 3, 4] : List ℚ).length ∧
       0 < (fun v : ℚ => if 2 ≤ v ∧ v ≤ 3 then (1:ℚ) else 0)
             (([1, 2, 3, 4] : List ℚ).getD i 0)
           + (fun v : ℚ => if 2 ≤ v ∧ v ≤ 3 then (1:ℚ) else 0)
             (([1, 2, 3, 4] : List ℚ).getD (i + 1) 0))) ∧
    Band_integration (fun v : ℚ => if 2 ≤ v ∧ v ≤ 3 then (1:ℚ) else 0)
      [1, 2, 3, 4] (([1, 2, 3, 4] : List ℚ).map (fun _ => (1:ℚ))) true true
      = 1 := by
  have h1 : List.Chain' (· < ·) ([1, 2, 3, 4] : List ℚ) := by
    norm_num [List.chain'_cons]
  have h2 : ∀ x ∈ ([1, 2, 3, 4] : List ℚ), 0 < x := by
    intro x hx
    simp only [List.mem_cons, List.not_mem_nil, or_false] at hx
    rcases hx with rfl | rfl | rfl | rfl <;> norm_num
  have h3 : ∀ x ∈ ([1, 2, 3, 4] : List ℚ),
      0 ≤ (fun v : ℚ => if 2 ≤ v ∧ v ≤ 3 then (1:ℚ) else 0) x := by
    intro x _
    dsimp only
    split_ifs <;> norm_num
  have h4 : ∃ i, i + 1 < ([1, 2, 3, 4] : List ℚ).length ∧
      0 < (fun v : ℚ => if 2 ≤ v ∧ v ≤ 3 then (1:ℚ) else 0)
            (([1, 2, 3, 4] : List ℚ).getD i 0)
          + (fun v : ℚ => if 2 ≤ v ∧ v ≤ 3 then (1:ℚ) else 0)
            (([1, 2, 3, 4] : List ℚ).getD (i + 1) 0) := by
    refine ⟨1, by norm_num, ?_⟩
    norm_num [List.getD]
  exact ⟨⟨h1, h2, h3, h4⟩,
    claim_C8 (fun v : ℚ => if 2 ≤ v ∧ v ≤ 3 then (1:ℚ) else 0) 1
      [1, 2, 3, 4] h1 h2 h3 h4⟩

/-! ### C7: `Photometry.Get_Keff` (lines 288-318)

`Get_Keff` needs `Real.sin`, so this part of the embedding lives over `ℝ`
(the generic `Fit_linear` applies to any field).  `keffFn` abstracts the
external `self.star.Keff(phase, atmo_grid=...)` surface-model evaluation
for the selected atmosphere grid. -/

/-- `Photometry.Get_Keff` (lines 288-318): sample the line-of-sight
velocity at `nphases` evenly spaced phases `np.arange(nphases)/nphases`
and return `tmp[1]`, the slope of
`Fit_linear(Keffs, np.sin(twopi*phases), inline=True)` (both parameters
free, unit errors). -/
noncomputable def Get_Keff (keffFn : ℝ → ℝ) (nphases : ℕ) : ℝ :=
  let phases := (List.range nphases).map (fun k : ℕ => (k : ℝ) / nphases)
  let Keffs := phases.map keffFn
  (Fit_linear Keffs (phases.map (fun φ => Real.sin (2 * Real.pi * φ)))
    (List.replicate nphases 1) none none).2.1

/-- The fit described by the claim: the slope of the weighted linear fit of
the sampled velocities against `sin(2π·phase)` with the intercept fixed at
`0` (unit weights, `Fit_linear`'s default errors). -/
noncomputable def KeffSineFitSlope (keffFn : ℝ → ℝ) (nphases : ℕ) : ℝ :=
  let phases := (List.range nphases).map (fun k : ℕ => (k : ℝ) / nphases)
  let Keffs := phases.map keffFn
  (Fit_linear Keffs (phases.map (fun φ => Real.sin (2 * Real.pi * φ)))
    (List.replicate nphases 1) (some 0) none).2.1

/-- The sine samples over one full period sum to zero (pair `k` with
`n - k`). -/
theorem sum_sin_sample (n : ℕ) :
    ∑ k ∈ Finset.range n, Real.sin (2 * Real.pi * ((k : ℝ) / n)) = 0 := by
  rcases Nat.eq_zero_or_pos n with rfl | hn
  · simp
  apply Finset.sum_involution (fun k _ => (n - k) % n)
  · intro k hk
    have hk' : k < n := Finset.mem_range.mp hk
    rcases Nat.eq_zero_or_pos k with rfl | hkpos
    · simp [Nat.mod_self]
    · have hmod : (n - k) % n = n - k := Nat.mod_eq_of_lt (by omega)
      rw [hmod]
      have hcast : ((n - k : ℕ) : ℝ) = (n : ℝ) - k := by
        rw [Nat.cast_sub (le_of_lt hk')]
      rw [hcast]
      have hne : (n : ℝ) ≠ 0 := Nat.cast_ne_zero.mpr (by omega)
      have harg : 2 * Real.pi * (((n : ℝ) - k) / n)
          = 2 * Real.pi - 2 * Real.pi * ((k : ℝ) / n) := by
        field_simp
        ring
      rw [harg, Real.sin_two_pi_sub]
      ring
  · intro k hk hfne heq
    apply hfne
    have hk' : k < n := Finset.mem_range.mp hk
    rcases Nat.eq_zero_or_pos k with rfl | hkpos
    · simp
    · have hmod : (n - k) % n = n - k := Nat.mod_eq_of_lt (by omega)
      rw [hmod] at heq
      have h2k : n = 2 * k := by omega
      subst h2k
      have hkne : (k : ℝ) ≠ 0 := Nat.cast_ne_zero.mpr (by omega)
      have harg : ((k : ℝ) / ((2 * k : ℕ) : ℝ)) = 1 / 2 := by
        rw [Nat.cast_mul, Nat.cast_ofNat]
        field_simp
        ring
      rw [harg]
      have hpi : 2 * Real.pi * (1 / 2) = Real.pi := by ring
      rw [hpi, Real.sin_pi]
  · intro k _
    exact Finset.mem_range.mpr (Nat.mod_lt _ hn)
  · intro k hk
    have hk' : k < n := Finset.mem_range.mp hk
    rcases Nat.eq_zero_or_pos k with rfl | hkpos
    · simp [Nat.mod_self]
    · have hmod : (n - k) % n = n - k := Nat.mod_eq_of_lt (by omega)
      simp only [hmod]
      have h2 : (n - (n - k)) % n = k % n := by
        congr 1
        omega
      rw [h2, Nat.mod_eq_of_lt hk']

theorem list_sum_range (f : ℕ → ℝ) : ∀ n : ℕ,
    ((List.range n).map f).sum = ∑ k ∈ Finset.range n, f k := by
  intro n
  induction n with
  | zero => simp
  | succ m ih =>
    rw [List.range_succ, List.map_append, List.sum_append,
        Finset.sum_range_succ, ih]
    simp

theorem zipWith_replicate_one :
    ∀ (x : List ℝ) (n : ℕ), x.length = n →
      (List.replicate n (1:ℝ)).zipWith (· * ·) x = x := by
  intro x
  induction x with
  | nil => intro n _; simp
  | cons a t ih =>
    intro n hn
    cases n with
    | zero => simp at hn
    | succ m =>
      rw [List.replicate_succ, List.zipWith_cons_cons, one_mul]
      rw [ih m (by simpa using hn)]

/-- With unit weights and an abscissa summing to zero, the slope of the
fully free weighted fit coincides with the slope of the fit whose intercept
is fixed at `0`. -/
theorem fit_slope_free_eq_fixed (y x : List ℝ) (n : ℕ) (hn : 1 ≤ n)
    (hxlen : x.length = n) (hsx : x.sum = 0) :
    (Fit_linear y x (List.replicate n 1) none none).2.1
      = (Fit_linear y x (List.replicate n 1) (some 0) none).2.1 := by
  have hw : (List.replicate n (1:ℝ)).map (fun e => 1 / e ^ 2)
      = List.replicate n 1 := by
    rw [List.map_replicate]
    norm_num
  have hL : (Fit_linear y x (List.replicate n 1) none none).2.1
      = (((List.replicate n (1:ℝ)).map (fun e => 1 / e ^ 2)).sum
          * ((((List.replicate n (1:ℝ)).map (fun e => 1 / e ^ 2)).zipWith
              (· * ·) x).zipWith (· * ·) y).sum
         - (((List.replicate n (1:ℝ)).map (fun e => 1 / e ^ 2)).zipWith
              (· * ·) x).sum
           * (((List.replicate n (1:ℝ)).map (fun e => 1 / e ^ 2)).zipWith
              (· * ·) y).sum)
        / (((List.replicate n (1:ℝ)).map (fun e => 1 / e ^ 2)).sum
            * (((List.replicate n (1:ℝ)).map (fun e => 1 / e ^ 2)).zipWith
                (fun wi xi => wi * xi ^ 2) x).sum
           - (((List.replicate n (1:ℝ)).map (fun e => 1 / e ^ 2)).zipWith
                (· * ·) x).sum ^ 2) := rfl
  have hR : (Fit_linear y x (List.replicate n 1) (some 0) none).2.1
      = (((((List.replicate n (1:ℝ)).map (fun e => 1 / e ^ 2)).zipWith
            (· * ·) x).zipWith (· * ·) y).sum
         - 0 * (((List.replicate n (1:ℝ)).map (fun e => 1 / e ^ 2)).zipWith
            (· * ·) x).sum)
        / (((List.replicate n (1:ℝ)).map (fun e => 1 / e ^ 2)).zipWith
            (fun wi xi => wi * xi ^ 2) x).sum := rfl
  rw [hL, hR, hw, List.sum_replicate, zipWith_replicate_one x n hxlen, hsx]
  simp only [nsmul_eq_mul, smul_eq_mul, mul_one, zero_mul, sub_zero, mul_zero]
  rw [zero_pow (by norm_num), sub_zero]
  have hc : ((n : ℕ) : ℝ) ≠ 0 := Nat.cast_ne_zero.mpr (by omega)
  exact mul_div_mul_left _ _ hc

/-- **C7.** `Get_Keff` samples the surface model's line-of-sight velocity
at `nphases` evenly spaced phases in `[0,1)` and returns the velocity
semi-amplitude as the slope of the weighted linear fit of those velocities
against `sin(2π·phase)` with the intercept fixed at `0` (the sine samples
over a full period sum to zero, so the free-intercept fit the code
performs has exactly this slope). -/
theorem claim_C7 (keffFn : ℝ → ℝ) (n : ℕ) (hn : 1 ≤ n) :
    Get_Keff keffFn n = KeffSineFitSlope keffFn n := by
  have hxlen : (((List.range n).map (fun k : ℕ => (k : ℝ) / n)).map
      (fun φ => Real.sin (2 * Real.pi * φ))).length = n := by
    rw [List.length_map, List.length_map, List.length_range]
  have hsx : (((List.range n).map (fun k : ℕ => (k : ℝ) / n)).map
      (fun φ => Real.sin (2 * Real.pi * φ))).sum = 0 := by
    rw [List.map_map]
    have heq : ((fun φ => Real.sin (2 * Real.pi * φ)) ∘ fun k : ℕ => (k : ℝ) / n)
        = fun k : ℕ => Real.sin (2 * Real.pi * ((k : ℝ) / n)) := rfl
    rw [heq, list_sum_range, sum_sin_sample]
  exact fit_slope_free_eq_fixed _ _ n hn hxlen hsx

/-- Witness for C7 at `nphases = 4` and the identity velocity curve. -/
theorem claim_C7_witness :
    (1 ≤ 4) ∧ Get_Keff (fun φ => φ) 4 = KeffSineFitSlope (fun φ => φ) 4 :=
  ⟨by norm_num, claim_C7 (fun φ => φ) 4 (by norm_num)⟩
